import Mathlib

/-!
Verification development for the SEAL-SUI bot (task orchestration and
resilient-upload engine).

Shallow embedding of the JavaScript sources:
* `src/config.js`        — configuration constants (default values).
* `src/proxy_manager.js` — `ProxyManager.getNextProxyUrl` (proxy rotation).
* `src/bot_logger.js`    — `BotLogger.log` history ring buffer and the
  event-emission path (Node `EventEmitter.emit` semantics: listeners are
  called synchronously in registration order, and an exception thrown by a
  listener propagates out of `emit`).
* `src/sui_actions.js`   — `SuiActions.uploadBlob` retry loop and
  `SuiActions.runCompleteAllowlistWorkflow`.
* `app.js`               — `SealBotApp.runBotLogic` wallet/repetition loops.

Effectful steps (chain transactions, HTTP requests, keypair derivation) are
abstracted as outcome oracles (`Except`-valued parameters); every model
produces an explicit trace of the observable actions it performs, so the
ordering, counting and containment properties of the spec can be stated
over the trace.  JavaScript strings are handled through their character
lists so that all definitions evaluate inside the kernel.
-/

/-- Error values are carried as plain message strings, matching the
JavaScript `Error.message` usage throughout the sources. -/
abbrev Err := String

/-! ### Configuration constants (`src/config.js`, default values) -/

/-- MAX_BLOB_UPLOAD_RETRIES from `src/config.js` (line 33). -/
def MAX_BLOB_UPLOAD_RETRIES : Nat := 5

/-- BLOB_UPLOAD_RETRY_DELAY_MS from `src/config.js` (line 38). -/
def BLOB_UPLOAD_RETRY_DELAY_MS : Nat := 5000

/-- MAX_BACKOFF_DELAY_MS from `src/config.js` (line 42): the configured
maximum backoff ceiling for blob-upload retries. -/
def MAX_BACKOFF_DELAY_MS : Nat := 60000

/-- TASK_REPEAT_DELAY_MS from `src/config.js` (line 46). -/
def TASK_REPEAT_DELAY_MS : Nat := 15000

/-! ### JavaScript string helpers

`String.split(sep)` for a single-character separator and
`String.startsWith` are modelled over the character list of the string. -/

/-- JavaScript `s.split(sep)` for a one-character separator: `"a:b"` gives
`["a","b"]`, `""` gives `[""]`, `"a::b"` gives `["a","","b"]`. -/
def jsSplit (sep : Char) (s : String) : List String :=
  (List.splitOn sep s.data).map String.mk

/-- JavaScript `s.startsWith(pre)`. -/
def jsStartsWith (s pre : String) : Bool :=
  List.isPrefixOf pre.data s.data

/-! ### ProxyManager (`src/proxy_manager.js`, lines 58–92)

`getNextProxyUrl` reads the entry at the rotation cursor, advances the
cursor modulo the list length, returns `http(s)://`-prefixed entries
verbatim, formats the three supported shapes, and otherwise warns and
recurses while the advanced cursor has not wrapped to `0`.

The JavaScript recursion is guarded by `proxies.length > 1 &&
currentProxyIndex !== 0`, which bounds its depth by the list length; the
embedding makes that bound explicit by structural recursion on a fuel
argument, initialised to `proxies.length` by `getNextProxyUrl`.  The
lemma `getNextProxyUrlFuel_irrel` below shows the fuel never runs
out when the cursor is in range, so the fuelled function computes the
same result the unbounded recursion would. -/

/-- Test for the `http://` / `https://` early return of
`getNextProxyUrl` (line 69 of `src/proxy_manager.js`). -/
def startsWithScheme (s : String) : Bool :=
  jsStartsWith s "http://" || jsStartsWith s "https://"

/-- The three-shape formatting block of `getNextProxyUrl` (lines 71–79):
`user:pass@host:port`, `host:port:user:pass` and `host:port` are formatted
into a proxy URL; any other shape yields `none` (the unsupported case). -/
def formatProxy (proxyString : String) : Option String :=
  let parts := jsSplit ':' proxyString
  let atParts := jsSplit '@' proxyString
  if atParts.length = 2 ∧ parts.length = 3 then
    some ("http://" ++ proxyString)
  else if parts.length = 4 then
    some ("http://" ++ parts.getD 2 "" ++ ":" ++ parts.getD 3 "" ++ "@" ++
      parts.getD 0 "" ++ ":" ++ parts.getD 1 "")
  else if parts.length = 2 then
    some ("http://" ++ proxyString)
  else
    none

/-- What a single inspection of an entry can return: `http(s)://`-prefixed
entries verbatim, otherwise the three-shape formatting. -/
def returnableFmt (s : String) : Option String :=
  if startsWithScheme s then some s else formatProxy s

/-- One call of `ProxyManager.getNextProxyUrl`, given the proxy list and
the current rotation cursor.  Returns the produced proxy URL (or `none`),
the cursor after the call, and the list of entries that were warned about
as unsupported (in warning order).  `fuel` bounds the recursion depth and
is instantiated with `proxies.length` by `getNextProxyUrl`. -/
def getNextProxyUrlFuel : Nat → List String → Nat → Option String × Nat × List String
  | 0, _, idx => (none, idx, [])
  | fuel + 1, proxies, idx =>
    if proxies.length = 0 then
      (none, idx, [])
    else
      let proxyString := proxies.getD idx ""
      let nextIdx := (idx + 1) % proxies.length
      if startsWithScheme proxyString then
        (some proxyString, nextIdx, [])
      else
        match formatProxy proxyString with
        | some formatted => (some formatted, nextIdx, [])
        | none =>
          if proxies.length > 1 && nextIdx != 0 then
            let r := getNextProxyUrlFuel fuel proxies nextIdx
            (r.1, r.2.1, proxyString :: r.2.2)
          else
            (none, nextIdx, [proxyString])

/-- `ProxyManager.getNextProxyUrl` on state `(proxies, idx)`. -/
def getNextProxyUrl (proxies : List String) (idx : Nat) :
    Option String × Nat × List String :=
  getNextProxyUrlFuel proxies.length proxies idx

example : getNextProxyUrl ["1.2.3.4:8080"] 0 =
    (some "http://1.2.3.4:8080", 0, []) := by decide

example : getNextProxyUrl ["u:p@h:80"] 0 = (some "http://u:p@h:80", 0, []) := by
  decide

example : getNextProxyUrl ["h:80:u:p"] 0 = (some "http://u:p@h:80", 0, []) := by
  decide

example : getNextProxyUrl ["https://garbage", "x"] 0 =
    (some "https://garbage", 1, []) := by decide

example : getNextProxyUrl ["bad", "1.2.3.4:8080"] 0 =
    (some "http://1.2.3.4:8080", 0, ["bad"]) := by decide

example : getNextProxyUrl ["1.2.3.4:8080", "bad"] 1 = (none, 0, ["bad"]) := by
  decide

/-! ### Lemmas about the proxy rotation -/

/-- Splitting `returnableFmt s = none` into its two component facts. -/
lemma of_returnableFmt_none {s : String} (h : returnableFmt s = none) :
    startsWithScheme s = false ∧ formatProxy s = none := by
  by_cases hs : startsWithScheme s
  · rw [returnableFmt, if_pos hs] at h; exact absurd h (by simp)
  · refine ⟨by simp [hs], ?_⟩
    rwa [returnableFmt, if_neg hs] at h

/-- The fuel argument of `getNextProxyUrlFuel` is irrelevant as soon as it
covers the distance from the cursor to the end of the list: the recursion
of `getNextProxyUrl` stops at the wrap to index `0`, so at most
`proxies.length - idx` entries are ever inspected in one call. -/
lemma getNextProxyUrlFuel_irrel :
    ∀ (f₁ f₂ idx : Nat) (proxies : List String),
      idx < proxies.length →
      proxies.length - idx ≤ f₁ → proxies.length - idx ≤ f₂ →
      getNextProxyUrlFuel f₁ proxies idx = getNextProxyUrlFuel f₂ proxies idx := by
  intro f₁
  induction f₁ with
  | zero => intro f₂ idx proxies h h₁ h₂; omega
  | succ g₁ ih =>
    intro f₂ idx proxies h h₁ h₂
    obtain ⟨g₂, rfl⟩ : ∃ g₂, f₂ = g₂ + 1 := ⟨f₂ - 1, by omega⟩
    simp only [getNextProxyUrlFuel]
    split
    · rfl
    next hlen =>
      split
      next hs => rfl
      next hs =>
        split
        next f hfmt => rfl
        next hfmt =>
          split
          next hg =>
            simp only [Bool.and_eq_true, bne_iff_ne, decide_eq_true_eq] at hg
            have hlt : idx + 1 < proxies.length := by
              by_contra hge
              have he : idx + 1 = proxies.length := by omega
              rw [he, Nat.mod_self] at hg
              exact hg.2 rfl
            have hni : (idx + 1) % proxies.length = idx + 1 := Nat.mod_eq_of_lt hlt
            rw [hni, ih g₂ (idx + 1) proxies hlt (by omega) (by omega)]
          next hg => rfl

/-- If every entry at or after the cursor fails the shape check, the call
returns the no-proxy value. -/
lemma getNextProxyUrlFuel_none_of_suffix_invalid :
    ∀ (fuel idx : Nat) (proxies : List String),
      idx < proxies.length →
      (∀ j, idx ≤ j → j < proxies.length → returnableFmt (proxies.getD j "") = none) →
      (getNextProxyUrlFuel fuel proxies idx).1 = none := by
  intro fuel
  induction fuel with
  | zero => intro idx proxies _ _; rfl
  | succ g ih =>
    intro idx proxies h hinv
    obtain ⟨hs, hfmt⟩ := of_returnableFmt_none (hinv idx le_rfl h)
    simp only [getNextProxyUrlFuel]
    split
    · rfl
    next hlen =>
      split
      next hs' => rw [hs] at hs'; exact absurd hs' (by simp)
      next hs' =>
        split
        next f hfmt' => rw [hfmt] at hfmt'; exact absurd hfmt' (by simp)
        next hfmt' =>
          split
          next hg =>
            simp only [Bool.and_eq_true, bne_iff_ne, decide_eq_true_eq] at hg
            have hlt : idx + 1 < proxies.length := by
              by_contra hge
              have he : idx + 1 = proxies.length := by omega
              rw [he, Nat.mod_self] at hg
              exact hg.2 rfl
            have hni : (idx + 1) % proxies.length = idx + 1 := Nat.mod_eq_of_lt hlt
            rw [hni]
            exact ih (idx + 1) proxies hlt (fun j hj₁ hj₂ => hinv j (by omega) hj₂)
          next hg => rfl

/-- If a produced proxy URL comes out of a call, some entry at or after
the cursor passed the shape check (or scheme prefix) and produced it: a
malformed entry is never returned. -/
lemma getNextProxyUrlFuel_some_exists :
    ∀ (fuel idx : Nat) (proxies : List String) (u : String),
      idx < proxies.length →
      (getNextProxyUrlFuel fuel proxies idx).1 = some u →
      ∃ j, idx ≤ j ∧ j < proxies.length ∧ returnableFmt (proxies.getD j "") = some u := by
  intro fuel
  induction fuel with
  | zero => intro idx proxies u _ hsome; exact absurd hsome (by simp [getNextProxyUrlFuel])
  | succ g ih =>
    intro idx proxies u h hsome
    simp only [getNextProxyUrlFuel] at hsome
    split at hsome
    · exact absurd hsome (by simp)
    next hlen =>
      split at hsome
      next hs =>
        refine ⟨idx, le_rfl, h, ?_⟩
        rw [returnableFmt, if_pos hs]
        exact hsome
      next hs =>
        split at hsome
        next f hfmt =>
          refine ⟨idx, le_rfl, h, ?_⟩
          rw [returnableFmt, if_neg hs, hfmt]
          exact hsome
        next hfmt =>
          split at hsome
          next hg =>
            simp only [Bool.and_eq_true, bne_iff_ne, decide_eq_true_eq] at hg
            have hlt : idx + 1 < proxies.length := by
              by_contra hge
              have he : idx + 1 = proxies.length := by omega
              rw [he, Nat.mod_self] at hg
              exact hg.2 rfl
            have hni : (idx + 1) % proxies.length = idx + 1 := Nat.mod_eq_of_lt hlt
            rw [hni] at hsome
            have hsome' : (getNextProxyUrlFuel g proxies (idx + 1)).1 = some u := hsome
            obtain ⟨j, hj₁, hj₂, hj₃⟩ := ih (idx + 1) proxies u hlt hsome'
            exact ⟨j, by omega, hj₂, hj₃⟩
          next hg => exact absurd hsome (by simp)

/-- If some entry at or after the cursor passes the shape check and the
fuel covers the distance to the end of the list, the call produces a proxy
URL — it does not fall back to no-proxy. -/
lemma getNextProxyUrlFuel_isSome_of_exists :
    ∀ (fuel idx : Nat) (proxies : List String),
      idx < proxies.length →
      proxies.length - idx ≤ fuel →
      (∃ j, idx ≤ j ∧ j < proxies.length ∧ (returnableFmt (proxies.getD j "")).isSome) →
      (getNextProxyUrlFuel fuel proxies idx).1.isSome := by
  intro fuel
  induction fuel with
  | zero => intro idx proxies h hf _; omega
  | succ g ih =>
    intro idx proxies h hf hex
    simp only [getNextProxyUrlFuel]
    split
    next hlen => omega
    next hlen =>
      split
      next hs => rfl
      next hs =>
        split
        next f hfmt => rfl
        next hfmt =>
          obtain ⟨j, hj₁, hj₂, hj₃⟩ := hex
          have hjne : j ≠ idx := by
            intro heq
            rw [heq, returnableFmt, if_neg hs, hfmt] at hj₃
            exact absurd hj₃ (by simp)
          have hjgt : idx + 1 ≤ j := by omega
          have hlt : idx + 1 < proxies.length := by omega
          have hni : (idx + 1) % proxies.length = idx + 1 := Nat.mod_eq_of_lt hlt
          split
          next hg =>
            rw [hni]
            exact ih (idx + 1) proxies hlt (by omega) ⟨j, hjgt, hj₂, hj₃⟩
          next hg =>
            exfalso
            apply hg
            simp only [Bool.and_eq_true, bne_iff_ne, decide_eq_true_eq]
            exact ⟨by omega, by rw [hni]; omega⟩

/-- The warning list of one call has at most `fuel` entries: each level of
the recursion warns about exactly one unsupported entry, so the number of
skipped entries is bounded by the fuel (and thus by the list length). -/
lemma getNextProxyUrlFuel_warn_le :
    ∀ (fuel idx : Nat) (proxies : List String),
      (getNextProxyUrlFuel fuel proxies idx).2.2.length ≤ fuel := by
  intro fuel
  induction fuel with
  | zero => intro idx proxies; simp [getNextProxyUrlFuel]
  | succ g ih =>
    intro idx proxies
    simp only [getNextProxyUrlFuel]
    split
    · simp
    next hlen =>
      split
      next hs => simp
      next hs =>
        split
        next f hfmt => simp
        next hfmt =>
          split
          next hg =>
            have hih := ih ((idx + 1) % proxies.length) proxies
            show (proxies.getD idx "" ::
              (getNextProxyUrlFuel g proxies ((idx + 1) % proxies.length)).2.2).length ≤ g + 1
            simp only [List.length_cons]
            omega
          next hg => simp

/-! ### BotLogger history ring buffer (`src/bot_logger.js`, lines 43–61)

`log` builds the entry, pushes it onto `logHistory`, and removes the
oldest entry (`shift()`) when the history exceeds `maxHistory`; it then
emits the entry to the listeners. -/

/-- The `maxHistory` capacity of `BotLogger` (line 34). -/
def maxHistory : Nat := 1000

/-- The history update of one `BotLogger.log` call (lines 54–57):
`push` the entry, then `shift` once if the length exceeds the capacity. -/
def logStep {α : Type} (history : List α) (entry : α) : List α :=
  let h := history ++ [entry]
  if h.length > maxHistory then h.tail else h

set_option maxRecDepth 4000 in
/-- Characterisation of the history after a sequence of `log` calls: it is
exactly the suffix of the emission sequence holding the most recent
`maxHistory` entries, in emission order (so entries are appended in
emission order and older entries are discarded first). -/
lemma foldl_logStep_eq {α : Type} :
    ∀ (es : List α) (h : List α), h.length ≤ maxHistory →
      es.foldl logStep h = (h ++ es).drop ((h ++ es).length - maxHistory) := by
  intro es
  induction es with
  | nil =>
    intro h hle
    have hz : h.length - maxHistory = 0 := by omega
    simp [hz]
  | cons e t ih =>
    intro h hle
    have hlen' : (logStep h e).length ≤ maxHistory := by
      rw [logStep]
      split
      next hc =>
        simp only [List.length_tail, List.length_append, List.length_cons,
          List.length_nil]
        omega
      next hc => omega
    rw [List.foldl_cons, ih (logStep h e) hlen']
    rw [logStep]
    split
    next hc =>
      have hfull : h.length = maxHistory := by
        simp only [List.length_append, List.length_cons, List.length_nil] at hc
        omega
      have h1 : (h ++ [e]).tail ++ t = ((h ++ e :: t) : List α).tail := by
        cases h with
        | nil => simp
        | cons a h' => simp
      rw [h1, List.drop_tail]
      have hcount : ((h ++ e :: t) : List α).tail.length - maxHistory + 1 =
          (h ++ e :: t).length - maxHistory := by
        simp only [List.length_tail, List.length_append, List.length_cons]
        omega
      rw [hcount]
    next hc =>
      rw [List.append_assoc, List.singleton_append]

/-! ### EventBus emission path (Node `EventEmitter.emit` semantics)

`BotLogger` extends Node's `EventEmitter`; `this.emit('log', logEntry)`
calls every registered listener synchronously in registration order, and
an exception thrown by a listener propagates out of `emit` — Node does
not catch listener exceptions.  Listeners are modelled as functions over
an observable state `σ` that may throw (`Except.error`); the model
returns the state reached and the first thrown error, if any. -/

/-- Node `EventEmitter.emit`: call the listeners in order; stop at, and
re-throw, the first listener exception. -/
def emitAll {σ ε : Type} : List (σ → Except ε σ) → σ → σ × Option ε
  | [], s => (s, none)
  | h :: rest, s =>
    match h s with
    | .ok s' => emitAll rest s'
    | .error err => (s, some err)

/-- One `BotLogger.log` call (lines 43–61): push the entry into the
bounded history, then emit it to the listeners.  Returns the new history,
the listeners' state, and the re-thrown listener error, if any. -/
def botLoggerLog {α σ ε : Type} (history : List α)
    (handlers : List (σ → Except ε σ)) (s : σ) (entry : α) :
    List α × σ × Option ε :=
  let newHistory := logStep history entry
  let r := emitAll handlers s
  (newHistory, r.1, r.2)

/-- Emission through a prefix of successful listeners reaches the
throwing listener, whose error then propagates: the listeners after it
are not invoked (the result does not depend on them). -/
lemma emitAll_append_error {σ ε : Type} :
    ∀ (hs₁ : List (σ → Except ε σ)) (f : σ → Except ε σ)
      (hs₂ : List (σ → Except ε σ)) (s s₁ : σ) (err : ε),
      emitAll hs₁ s = (s₁, none) → f s₁ = Except.error err →
      emitAll (hs₁ ++ f :: hs₂) s = (s₁, some err) := by
  intro hs₁
  induction hs₁ with
  | nil =>
    intro f hs₂ s s₁ err hok hf
    have hs : s = s₁ := congrArg Prod.fst hok
    subst hs
    simp only [List.nil_append, emitAll, hf]
  | cons g rest ih =>
    intro f hs₂ s s₁ err hok hf
    simp only [emitAll] at hok ⊢
    cases hg : g s with
    | ok s' =>
      rw [hg] at hok
      exact ih f hs₂ s' s₁ err hok hf
    | error e =>
      rw [hg] at hok
      exact absurd (congrArg (fun p => p.2) hok) (by simp)

/-! ### BlobUploadManager (`SuiActions.uploadBlob`,
`src/sui_actions.js` lines 284–336)

The resolved image data and the shuffled publisher order are taken as
given (the shuffle is a random permutation of `PUBLISHER_URLS`); the
outcome of the HTTP PUT of attempt `a` — including the tolerant
response-shape parsing of lines 311–316 — is abstracted by the oracle
`attemptResult a`, which yields the extracted blob id or the error
recorded for that attempt. -/

/-- Observable actions of one `uploadBlob` call: an HTTP attempt against
a publisher, or an inter-attempt retry wait. -/
inductive UpEv where
  | attempt (attemptNo pubIdx : Nat) (publisher : String)
  | retryDelay (ms : Nat)
  deriving DecidableEq

instance {ε α : Type} [DecidableEq ε] [DecidableEq α] :
    DecidableEq (Except ε α) := fun x y =>
  match x, y with
  | .ok a, .ok b =>
    if h : a = b then isTrue (by rw [h]) else isFalse (by simp [h])
  | .ok _, .error _ => isFalse (by simp)
  | .error _, .ok _ => isFalse (by simp)
  | .error e, .error f =>
    if h : e = f then isTrue (by rw [h]) else isFalse (by simp [h])

/-- The error thrown after exhausting all attempts (line 335):
`Failed to upload blob after maximum retries. Last error: ...`. -/
def exhaustedMsg : Option Err → Err
  | some e => "Failed to upload blob after maximum retries. Last error: " ++ e
  | none => "Failed to upload blob after maximum retries. Last error: Unknown error"

/-- The error thrown when no publishers are configured (line 293). -/
def noPublishersMsg : Err := "No publisher URLs configured."

/-- The retry loop of `uploadBlob` (lines 298–333), written by structural
recursion on the number of remaining attempts; `attemptNo` counts
1-based attempts exactly as the JavaScript `for` loop does, and the
publisher for attempt `a` is `shuffled[(a-1) % shuffled.length]`.  A
retry delay is waited only when attempts remain (`attempt <
MAX_BLOB_UPLOAD_RETRIES`, line 328). -/
def uploadLoop (shuffled : List String) (retryDelayMs : Nat)
    (attemptResult : Nat → Except Err String) :
    Nat → Nat → Option Err → List UpEv × Except Err String
  | 0, _, lastErr => ([], .error (exhaustedMsg lastErr))
  | remaining + 1, attemptNo, _ =>
    let pubIdx := (attemptNo - 1) % shuffled.length
    let publisher := shuffled.getD pubIdx ""
    match attemptResult attemptNo with
    | .ok blobId => ([UpEv.attempt attemptNo pubIdx publisher], .ok blobId)
    | .error e =>
      let rest := uploadLoop shuffled retryDelayMs attemptResult remaining (attemptNo + 1) (some e)
      if remaining > 0 then
        (UpEv.attempt attemptNo pubIdx publisher :: UpEv.retryDelay retryDelayMs :: rest.1, rest.2)
      else
        (UpEv.attempt attemptNo pubIdx publisher :: rest.1, rest.2)

/-- `SuiActions.uploadBlob` (lines 284–336): fail fast when no publisher
URLs are configured, otherwise run up to `maxRetries` attempts. -/
def uploadBlob (publishers : List String) (maxRetries retryDelayMs : Nat)
    (attemptResult : Nat → Except Err String) : List UpEv × Except Err String :=
  if publishers.length = 0 then ([], .error noPublishersMsg)
  else uploadLoop publishers retryDelayMs attemptResult maxRetries 1 none

/-- Attempt events of an upload trace. -/
def isAttempt : UpEv → Bool
  | .attempt _ _ _ => true
  | _ => false

/-- The waited inter-attempt delays of an upload trace, in order. -/
def delaysOf (evs : List UpEv) : List Nat :=
  evs.filterMap (fun e => match e with | .retryDelay m => some m | _ => none)

@[simp] lemma isAttempt_attempt (a p : Nat) (u : String) :
    isAttempt (UpEv.attempt a p u) = true := rfl

@[simp] lemma isAttempt_retryDelay (m : Nat) :
    isAttempt (UpEv.retryDelay m) = false := rfl

@[simp] lemma delaysOf_nil : delaysOf [] = [] := rfl

@[simp] lemma delaysOf_cons_attempt (a p : Nat) (u : String) (l : List UpEv) :
    delaysOf (UpEv.attempt a p u :: l) = delaysOf l := rfl

@[simp] lemma delaysOf_cons_retryDelay (m : Nat) (l : List UpEv) :
    delaysOf (UpEv.retryDelay m :: l) = m :: delaysOf l := rfl

example :
    uploadBlob ["p1", "p2"] 3 5000 (fun _ => Except.error "boom") =
      ([UpEv.attempt 1 0 "p1", UpEv.retryDelay 5000,
        UpEv.attempt 2 1 "p2", UpEv.retryDelay 5000,
        UpEv.attempt 3 0 "p1"],
       Except.error (exhaustedMsg (some "boom"))) := by decide

example :
    uploadBlob ["p1", "p2"] 3 5000
      (fun a => if a = 2 then Except.ok "blob" else Except.error "boom") =
      ([UpEv.attempt 1 0 "p1", UpEv.retryDelay 5000, UpEv.attempt 2 1 "p2"],
       Except.ok "blob") := by decide

/-- One failing attempt with further attempts remaining: the attempt and
one retry delay are recorded, and the loop continues with the attempt's
error as the last observed error. -/
lemma uploadLoop_step_fail (shuffled : List String) (d : Nat)
    (attemptResult : Nat → Except Err String) (attemptNo m : Nat)
    (lastErr : Option Err) (e : Err) (h : attemptResult attemptNo = Except.error e) :
    uploadLoop shuffled d attemptResult (m + 1 + 1) attemptNo lastErr =
      (UpEv.attempt attemptNo ((attemptNo - 1) % shuffled.length)
          (shuffled.getD ((attemptNo - 1) % shuffled.length) "") ::
        UpEv.retryDelay d ::
        (uploadLoop shuffled d attemptResult (m + 1) (attemptNo + 1) (some e)).1,
       (uploadLoop shuffled d attemptResult (m + 1) (attemptNo + 1) (some e)).2) := by
  conv_lhs => rw [uploadLoop]
  rw [h]
  simp

/-- The final failing attempt: only the attempt is recorded (no trailing
delay) and the loop exhausts with that attempt's error attached. -/
lemma uploadLoop_last_fail (shuffled : List String) (d : Nat)
    (attemptResult : Nat → Except Err String) (attemptNo : Nat)
    (lastErr : Option Err) (e : Err) (h : attemptResult attemptNo = Except.error e) :
    uploadLoop shuffled d attemptResult 1 attemptNo lastErr =
      ([UpEv.attempt attemptNo ((attemptNo - 1) % shuffled.length)
          (shuffled.getD ((attemptNo - 1) % shuffled.length) "")],
       Except.error (exhaustedMsg (some e))) := by
  conv_lhs => rw [uploadLoop]
  rw [h]
  simp [uploadLoop]

/-- When every attempt fails, the loop performs exactly the remaining
number of attempts, waits exactly one constant delay between consecutive
attempts (none after the last), and exhausts with the error of the final
attempt. -/
lemma uploadLoop_fail_trace (shuffled : List String) (d : Nat)
    (attemptResult : Nat → Except Err String) (errF : Nat → Err)
    (har : ∀ a, attemptResult a = Except.error (errF a)) :
    ∀ (n attemptNo : Nat) (lastErr : Option Err),
      (((uploadLoop shuffled d attemptResult (n + 1) attemptNo lastErr).1.filter isAttempt).length
        = n + 1) ∧
      (delaysOf (uploadLoop shuffled d attemptResult (n + 1) attemptNo lastErr).1
        = List.replicate n d) ∧
      ((uploadLoop shuffled d attemptResult (n + 1) attemptNo lastErr).2
        = Except.error (exhaustedMsg (some (errF (attemptNo + n))))) := by
  intro n
  induction n with
  | zero =>
    intro attemptNo lastErr
    rw [uploadLoop_last_fail shuffled d attemptResult attemptNo lastErr
      (errF attemptNo) (har attemptNo)]
    simp
  | succ m ih =>
    intro attemptNo lastErr
    obtain ⟨ih₁, ih₂, ih₃⟩ := ih (attemptNo + 1) (some (errF attemptNo))
    have harg : attemptNo + 1 + m = attemptNo + (m + 1) := by omega
    rw [harg] at ih₃
    rw [uploadLoop_step_fail shuffled d attemptResult attemptNo m lastErr
      (errF attemptNo) (har attemptNo)]
    refine ⟨?_, ?_, ?_⟩
    · simp only [List.filter_cons, isAttempt_attempt, isAttempt_retryDelay,
        List.length_cons, if_pos, cond_true, cond_false]
      simpa using ih₁
    · simp only [delaysOf_cons_attempt, delaysOf_cons_retryDelay, ih₂,
        List.replicate_succ]
    · exact ih₃

/-! ### WorkflowEngine: the allowlist workflow
(`SuiActions.runCompleteAllowlistWorkflow`, `src/sui_actions.js`
lines 388–407)

The chain transactions are abstracted by outcome oracles collected in
`WfOracles`: `createResult` is the outcome of `createAllowlistEntry`
(transaction plus object-id resolution), `addResult a` the outcome of
`addAddressToAllowlist` for address `a`, `attemptResult` the upload
attempt oracle fed to `uploadBlob`, and `publishResult` the outcome of
`publishBlobToAllowlist`.  Additional addresses are JavaScript values,
since the code guards on `addr && typeof addr === 'string'`. -/

/-- A JavaScript value, as far as the `typeof`/truthiness check on an
additional address can distinguish them. -/
inductive JSVal where
  | str (s : String)
  | num (n : Int)
  | boolv (b : Bool)
  | nullv
  deriving DecidableEq

/-- The guard `addr && typeof addr === 'string'` (line 394): a truthy
string, i.e. a non-empty string. -/
def isAddrString : JSVal → Bool
  | .str s => s ≠ ""
  | _ => false

/-- Observable actions of one allowlist-workflow run: the creation
transaction, an add-address transaction, the warning that skips an
invalid additional address, an upload action, and the publish
transaction. -/
inductive WfEv where
  | txCreate
  | txAdd (addr : String)
  | warnSkipAddr (a : JSVal)
  | upload (e : UpEv)
  | txPublish (blobId : String)
  deriving DecidableEq

/-- The additional-address loop (lines 393–396): valid entries are
submitted as add-address transactions in order — a transaction failure
aborts the whole loop — while invalid entries are skipped with a
warning and the loop continues. -/
def addLoop (addResult : String → Except Err Unit) :
    List JSVal → List WfEv × Except Err Unit
  | [] => ([], Except.ok ())
  | a :: rest =>
    match a with
    | JSVal.str s =>
      if s = "" then
        let r := addLoop addResult rest
        (WfEv.warnSkipAddr (JSVal.str s) :: r.1, r.2)
      else
        match addResult s with
        | .ok _ =>
          let r := addLoop addResult rest
          (WfEv.txAdd s :: r.1, r.2)
        | .error e => ([WfEv.txAdd s], Except.error e)
    | a =>
      let r := addLoop addResult rest
      (WfEv.warnSkipAddr a :: r.1, r.2)

/-- Outcome oracles for the effectful steps of the allowlist workflow. -/
structure WfOracles where
  createResult : Except Err (String × String)
  selfAddress : String
  addResult : String → Except Err Unit
  attemptResult : Nat → Except Err String
  publishResult : String → Except Err Unit

/-- `SuiActions.runCompleteAllowlistWorkflow` (lines 388–407): create the
allowlist entry, add the wallet's own address, add each additional
address in order, upload the blob, publish it.  Any step failure aborts
the remaining steps and propagates (the `catch` at line 403 logs and
re-throws). -/
def runCompleteAllowlistWorkflow (o : WfOracles) (publishers : List String)
    (maxRetries retryDelayMs : Nat) (additionalAddresses : List JSVal) :
    List WfEv × Except Err (String × String × String) :=
  match o.createResult with
  | .error e => ([WfEv.txCreate], .error e)
  | .ok (allowlistId, entryObjectId) =>
    match o.addResult o.selfAddress with
    | .error e => ([WfEv.txCreate, WfEv.txAdd o.selfAddress], .error e)
    | .ok _ =>
      let addR := addLoop o.addResult additionalAddresses
      match addR.2 with
      | .error e => (WfEv.txCreate :: WfEv.txAdd o.selfAddress :: addR.1, .error e)
      | .ok _ =>
        let upR := uploadBlob publishers maxRetries retryDelayMs o.attemptResult
        match upR.2 with
        | .error e =>
          (WfEv.txCreate :: WfEv.txAdd o.selfAddress :: addR.1 ++ upR.1.map WfEv.upload,
           .error e)
        | .ok blobId =>
          match o.publishResult blobId with
          | .error e =>
            (WfEv.txCreate :: WfEv.txAdd o.selfAddress :: addR.1 ++ upR.1.map WfEv.upload ++
              [WfEv.txPublish blobId], .error e)
          | .ok _ =>
            (WfEv.txCreate :: WfEv.txAdd o.selfAddress :: addR.1 ++ upR.1.map WfEv.upload ++
              [WfEv.txPublish blobId], .ok (allowlistId, entryObjectId, blobId))

/-- Upload actions of a workflow trace. -/
def isUploadWf : WfEv → Bool
  | .upload _ => true
  | _ => false

/-- Skip warnings of a workflow trace. -/
def isSkipWf : WfEv → Bool
  | .warnSkipAddr _ => true
  | _ => false

/-! ### WalletTaskOrchestrator (`SealBotApp.runBotLogic`, `app.js`
lines 116–209)

`actionType` is hardcoded to `'allowlist'` (line 125), so every
repetition invokes `runCompleteAllowlistWorkflow`; its outcome per
(wallet, repetition) is abstracted by `runWorkflow`, and wallet keypair
initialisation (the `SuiActions` constructor, line 146) by
`initResult`.  A repetition error is caught at line 179 and the
repetition loop continues (the `break` is commented out, line 183); a
wallet initialisation error is caught at line 187 and the wallet loop
continues.  The inter-repetition delay (lines 172–176) runs only on the
success path, when `rep < repetitionsPerWallet` and
`TASK_REPEAT_DELAY_MS > 0`. -/

/-- Observable actions of one `runBotLogic` run. -/
inductive OrchEv where
  | initKeypair (walletIdx : Nat)
  | initFailed (walletIdx : Nat)
  | workflowInvoked (walletIdx rep : Nat)
  | workflowStep (walletIdx rep : Nat) (ev : WfEv)
  | repFailed (walletIdx rep : Nat)
  | interRepDelay (walletIdx rep : Nat) (ms : Nat)
  | walletFinished (walletIdx : Nat)
  | allFinished
  deriving DecidableEq

/-- One repetition of the inner loop (lines 155–185): invoke the
workflow; on success wait the inter-repetition delay unless this was the
last repetition or no delay is configured; on failure catch and log at
the repetition boundary. -/
def repEvents (runWorkflow : Nat → Nat → List WfEv × Except Err Unit)
    (reps delayMs walletIdx rep : Nat) : List OrchEv :=
  let r := runWorkflow walletIdx rep
  let base :=
    OrchEv.workflowInvoked walletIdx rep :: r.1.map (OrchEv.workflowStep walletIdx rep)
  match r.2 with
  | .ok _ =>
    if rep < reps ∧ 0 < delayMs then
      base ++ [OrchEv.interRepDelay walletIdx rep delayMs]
    else base
  | .error _ => base ++ [OrchEv.repFailed walletIdx rep]

/-- One wallet of the outer loop (lines 138–204): initialise the
keypair; on failure catch at the wallet boundary; otherwise run
`repetitionsPerWallet` repetitions (`rep = 1..reps`); the `finally`
block always runs. -/
def walletEvents (initResult : Nat → Except Err Unit)
    (runWorkflow : Nat → Nat → List WfEv × Except Err Unit)
    (reps delayMs walletIdx : Nat) : List OrchEv :=
  match initResult walletIdx with
  | .error _ =>
    [OrchEv.initKeypair walletIdx, OrchEv.initFailed walletIdx,
     OrchEv.walletFinished walletIdx]
  | .ok _ =>
    OrchEv.initKeypair walletIdx ::
      ((List.range' 1 reps).flatMap (repEvents runWorkflow reps delayMs walletIdx) ++
        [OrchEv.walletFinished walletIdx])

/-- `SealBotApp.runBotLogic` (lines 116–209): process the wallets
sequentially (index `0..numWallets-1`) and finish. -/
def runBotLogic (numWallets reps delayMs : Nat)
    (initResult : Nat → Except Err Unit)
    (runWorkflow : Nat → Nat → List WfEv × Except Err Unit) : List OrchEv :=
  (List.range numWallets).flatMap
    (walletEvents initResult runWorkflow reps delayMs) ++ [OrchEv.allFinished]

/-- The per-repetition call of `app.js` line 161,
`await suiActions.runCompleteAllowlistWorkflow(imageSource,
additionalAddresses)`: the workflow result object is discarded by the
orchestrator. -/
def appRunWorkflow (o : WfOracles) (publishers : List String)
    (maxRetries retryDelayMs : Nat) (addrs : List JSVal)
    (_walletIdx _rep : Nat) : List WfEv × Except Err Unit :=
  let r := runCompleteAllowlistWorkflow o publishers maxRetries retryDelayMs addrs
  (r.1, r.2.map fun _ => ())

/-- Workflow-invocation events of an orchestrator trace. -/
def isInvoked : OrchEv → Bool
  | .workflowInvoked _ _ => true
  | _ => false

/-- Inter-repetition delay events of an orchestrator trace. -/
def isDelayEv : OrchEv → Bool
  | .interRepDelay _ _ _ => true
  | _ => false

/-- Upload actions of an orchestrator trace. -/
def isUploadEv : OrchEv → Bool
  | .workflowStep _ _ e => isUploadWf e
  | _ => false

/-! ### Lemmas about the workflow and the orchestrator -/

/-- When every add-address transaction succeeds, the additional-address
loop walks the whole list in order: valid entries become add-address
transactions, invalid entries become skip warnings, and the loop
succeeds. -/
lemma addLoop_all_ok (addRes : String → Except Err Unit)
    (hok : ∀ s, addRes s = Except.ok ()) :
    ∀ addrs, addLoop addRes addrs =
      (addrs.map (fun a => match a with
        | JSVal.str s =>
          if s = "" then WfEv.warnSkipAddr (JSVal.str s) else WfEv.txAdd s
        | a => WfEv.warnSkipAddr a), Except.ok ()) := by
  intro addrs
  induction addrs with
  | nil => rfl
  | cons a rest ih =>
    cases a with
    | str s =>
      by_cases hs : s = ""
      · simp [addLoop, hs, ih]
      · simp [addLoop, hs, hok s, ih]
    | num n => simp [addLoop, ih]
    | boolv b => simp [addLoop, ih]
    | nullv => simp [addLoop, ih]

/-- The additional-address loop never performs an upload action. -/
lemma addLoop_no_upload (addRes : String → Except Err Unit) :
    ∀ addrs, ((addLoop addRes addrs).1.filter isUploadWf) = [] := by
  intro addrs
  induction addrs with
  | nil => rfl
  | cons a rest ih =>
    cases a with
    | str s =>
      by_cases hs : s = ""
      · simp [addLoop, hs, isUploadWf, ih]
      · cases har : addRes s with
        | ok u => simp [addLoop, hs, har, isUploadWf, ih]
        | error e => simp [addLoop, hs, har, isUploadWf]
    | num n => simp [addLoop, isUploadWf, ih]
    | boolv b => simp [addLoop, isUploadWf, ih]
    | nullv => simp [addLoop, isUploadWf, ih]

/-- With no publishers configured, the workflow still runs the creation
transaction, the self add-address transaction and the whole
additional-address loop, then fails inside `uploadBlob` before any
upload attempt. -/
lemma workflow_no_publishers (o : WfOracles) (R d : Nat) (addrs : List JSVal)
    (p : String × String) (hc : o.createResult = Except.ok p)
    (hself : o.addResult o.selfAddress = Except.ok ())
    (hadd : (addLoop o.addResult addrs).2 = Except.ok ()) :
    runCompleteAllowlistWorkflow o [] R d addrs =
      (WfEv.txCreate :: WfEv.txAdd o.selfAddress :: (addLoop o.addResult addrs).1,
       Except.error noPublishersMsg) := by
  obtain ⟨a, b⟩ := p
  simp [runCompleteAllowlistWorkflow, hc, hself, hadd, uploadBlob]

/-- If the additional-address loop fails, the workflow fails with that
error, having performed no upload action and no publish transaction. -/
lemma workflow_addLoop_error (o : WfOracles) (publishers : List String)
    (R d : Nat) (addrs : List JSVal) (p : String × String) (e : Err)
    (hc : o.createResult = Except.ok p)
    (hself : o.addResult o.selfAddress = Except.ok ())
    (hadd : (addLoop o.addResult addrs).2 = Except.error e) :
    runCompleteAllowlistWorkflow o publishers R d addrs =
      (WfEv.txCreate :: WfEv.txAdd o.selfAddress :: (addLoop o.addResult addrs).1,
       Except.error e) := by
  obtain ⟨a, b⟩ := p
  simp [runCompleteAllowlistWorkflow, hc, hself, hadd]

/-- A repetition's trace always starts with the workflow invocation, and
that is its only invocation event. -/
lemma repEvents_filter_invoked (rw : Nat → Nat → List WfEv × Except Err Unit)
    (reps d i r : Nat) :
    (repEvents rw reps d i r).filter isInvoked = [OrchEv.workflowInvoked i r] := by
  cases h : (rw i r).2 with
  | ok u =>
    simp only [repEvents, h]
    split
    · simp [List.filter_append, List.filter_map, Function.comp_def, isInvoked]
    · simp [List.filter_map, Function.comp_def, isInvoked]
  | error e =>
    simp [repEvents, h, List.filter_append, List.filter_map, Function.comp_def,
      isInvoked]

/-- A successful repetition that is not the last waits exactly one
inter-repetition delay, after the workflow invocation. -/
lemma repEvents_delay_mid (rw : Nat → Nat → List WfEv × Except Err Unit)
    (reps d i r : Nat) (h : (rw i r).2 = Except.ok ())
    (h₂ : r < reps) (h₃ : 0 < d) :
    (repEvents rw reps d i r).filter isDelayEv = [OrchEv.interRepDelay i r d] := by
  simp [repEvents, h, h₂, h₃, List.filter_append, List.filter_map,
    Function.comp_def, isDelayEv]

/-- A successful final repetition waits no inter-repetition delay. -/
lemma repEvents_delay_last (rw : Nat → Nat → List WfEv × Except Err Unit)
    (reps d i r : Nat) (h : (rw i r).2 = Except.ok ()) (h₂ : ¬ r < reps) :
    (repEvents rw reps d i r).filter isDelayEv = [] := by
  simp [repEvents, h, h₂, List.filter_map, Function.comp_def, isDelayEv]

/-- A failed repetition waits no inter-repetition delay. -/
lemma repEvents_delay_error (rw : Nat → Nat → List WfEv × Except Err Unit)
    (reps d i r : Nat) (e : Err) (h : (rw i r).2 = Except.error e) :
    (repEvents rw reps d i r).filter isDelayEv = [] := by
  simp [repEvents, h, List.filter_append, List.filter_map, Function.comp_def,
    isDelayEv]

/-- Every repetition's trace contains its workflow invocation, whatever
the workflow outcome. -/
lemma invoked_mem_repEvents (rw : Nat → Nat → List WfEv × Except Err Unit)
    (reps d i r : Nat) :
    OrchEv.workflowInvoked i r ∈ repEvents rw reps d i r := by
  cases h : (rw i r).2 with
  | ok u => simp only [repEvents, h]; split <;> simp
  | error e => simp [repEvents, h]

/-- A workflow action of repetition `r` appears in that repetition's
trace. -/
lemma step_mem_repEvents (rw : Nat → Nat → List WfEv × Except Err Unit)
    (reps d i r : Nat) (ev : WfEv) (he : ev ∈ (rw i r).1) :
    OrchEv.workflowStep i r ev ∈ repEvents rw reps d i r := by
  cases h : (rw i r).2 with
  | ok u =>
    simp only [repEvents, h]
    split
    · exact List.mem_append_left _
        (List.mem_cons_of_mem _ (List.mem_map_of_mem _ he))
    · exact List.mem_cons_of_mem _ (List.mem_map_of_mem _ he)
  | error e =>
    simp only [repEvents, h]
    exact List.mem_append_left _
      (List.mem_cons_of_mem _ (List.mem_map_of_mem _ he))

/-- A failed repetition records its failure at the repetition boundary. -/
lemma repFailed_mem_repEvents (rw : Nat → Nat → List WfEv × Except Err Unit)
    (reps d i r : Nat) (e : Err) (h : (rw i r).2 = Except.error e) :
    OrchEv.repFailed i r ∈ repEvents rw reps d i r := by
  simp [repEvents, h]

/-- Every wallet's processing reaches the `finally` block, whatever the
initialisation outcome. -/
lemma walletFinished_mem_walletEvents (init : Nat → Except Err Unit)
    (rw : Nat → Nat → List WfEv × Except Err Unit) (reps d i : Nat) :
    OrchEv.walletFinished i ∈ walletEvents init rw reps d i := by
  cases h : init i <;> simp [walletEvents, h]

/-- Membership in a repetition's trace lifts to the wallet's trace, for
any repetition number in `1..reps` of a wallet whose initialisation
succeeded. -/
lemma repEvent_mem_walletEvents (init : Nat → Except Err Unit)
    (rw : Nat → Nat → List WfEv × Except Err Unit) (reps d i r : Nat)
    (hinit : init i = Except.ok ()) (hr₁ : 1 ≤ r) (hr₂ : r ≤ reps)
    (ev : OrchEv) (he : ev ∈ repEvents rw reps d i r) :
    ev ∈ walletEvents init rw reps d i := by
  simp only [walletEvents, hinit]
  refine List.mem_cons_of_mem _ (List.mem_append_left _ ?_)
  refine List.mem_flatMap.mpr ⟨r, ?_, he⟩
  rw [List.mem_range']
  exact ⟨r - 1, by omega, by rw [one_mul]; omega⟩

/-- The keypair initialisation of every wallet is attempted. -/
lemma initKeypair_mem_walletEvents (init : Nat → Except Err Unit)
    (rw : Nat → Nat → List WfEv × Except Err Unit) (reps d i : Nat) :
    OrchEv.initKeypair i ∈ walletEvents init rw reps d i := by
  cases h : init i <;> simp [walletEvents, h]

/-- Membership in a wallet's trace lifts to the run's trace, for any
wallet index below the wallet count. -/
lemma walletEvent_mem_runBotLogic (numWallets reps d : Nat)
    (init : Nat → Except Err Unit)
    (rw : Nat → Nat → List WfEv × Except Err Unit) (i : Nat)
    (hi : i < numWallets) (ev : OrchEv)
    (he : ev ∈ walletEvents init rw reps d i) :
    ev ∈ runBotLogic numWallets reps d init rw :=
  List.mem_append_left _ (List.mem_flatMap.mpr ⟨i, List.mem_range.mpr hi, he⟩)

/-- The run always reaches its final event: `runBotLogic` returns
normally, whatever the initialisation and workflow outcomes. -/
lemma runBotLogic_getLast (numWallets reps d : Nat)
    (init : Nat → Except Err Unit)
    (rw : Nat → Nat → List WfEv × Except Err Unit) :
    (runBotLogic numWallets reps d init rw).getLast? = some OrchEv.allFinished :=
  List.getLast?_concat _

/-- A constant-delay list is non-decreasing. -/
lemma chainLe_replicate : ∀ (n c : Nat), List.Chain' (· ≤ ·) (List.replicate n c) := by
  intro n c
  induction n with
  | zero => simp
  | succ m ih =>
    cases m with
    | zero => simp
    | succ k =>
      rw [List.replicate_succ, List.replicate_succ, List.chain'_cons]
      exact ⟨le_refl c, by rw [← List.replicate_succ]; exact ih⟩

/-- No event of a repetition whose workflow trace is upload-free is an
upload action. -/
lemma not_upload_of_mem_repEvents (rw : Nat → Nat → List WfEv × Except Err Unit)
    (reps d i r : Nat) (h : (rw i r).1.filter isUploadWf = [])
    (ev : OrchEv) (hev : ev ∈ repEvents rw reps d i r) : ¬ isUploadEv ev = true := by
  have hno : ∀ e ∈ (rw i r).1, ¬ isUploadWf e = true := List.filter_eq_nil_iff.mp h
  have hbase : ∀ ev, ev ∈ (OrchEv.workflowInvoked i r ::
      (rw i r).1.map (OrchEv.workflowStep i r)) → ¬ isUploadEv ev = true := by
    intro ev hev
    rcases List.mem_cons.mp hev with rfl | hev
    · simp [isUploadEv]
    · obtain ⟨e, he, rfl⟩ := List.mem_map.mp hev
      simpa [isUploadEv] using hno e he
  cases hwf : (rw i r).2 with
  | ok u =>
    simp only [repEvents, hwf] at hev
    split at hev
    · rcases List.mem_append.mp hev with hev | hev
      · exact hbase ev hev
      · have heq := List.mem_singleton.mp hev
        subst heq
        simp [isUploadEv]
    · exact hbase ev hev
  | error er =>
    simp only [repEvents, hwf] at hev
    rcases List.mem_append.mp hev with hev | hev
    · exact hbase ev hev
    · have heq := List.mem_singleton.mp hev
      subst heq
      simp [isUploadEv]

/-- If no repetition's workflow trace has an upload action, the whole run
trace has none. -/
lemma runBotLogic_no_upload (numWallets reps d : Nat)
    (init : Nat → Except Err Unit)
    (rw : Nat → Nat → List WfEv × Except Err Unit)
    (h : ∀ i r, (rw i r).1.filter isUploadWf = []) :
    (runBotLogic numWallets reps d init rw).filter isUploadEv = [] := by
  rw [List.filter_eq_nil_iff]
  intro ev hev
  rcases List.mem_append.mp hev with hev | hev
  · obtain ⟨i, hi, hev⟩ := List.mem_flatMap.mp hev
    cases hinit : init i with
    | error e =>
      simp only [walletEvents, hinit] at hev
      rcases List.mem_cons.mp hev with rfl | hev
      · simp [isUploadEv]
      rcases List.mem_cons.mp hev with rfl | hev
      · simp [isUploadEv]
      rcases List.mem_cons.mp hev with rfl | hev
      · simp [isUploadEv]
      · exact absurd hev (List.not_mem_nil ev)
    | ok u =>
      simp only [walletEvents, hinit] at hev
      rcases List.mem_cons.mp hev with rfl | hev
      · simp [isUploadEv]
      rcases List.mem_append.mp hev with hev | hev
      · obtain ⟨rr, _, hev⟩ := List.mem_flatMap.mp hev
        exact not_upload_of_mem_repEvents rw reps d i rr (h i rr) ev hev
      · have heq := List.mem_singleton.mp hev
        subst heq
        simp [isUploadEv]
  · have heq := List.mem_singleton.mp hev
    subst heq
    simp [isUploadEv]

/-- The app run with an empty publisher list: `runBotLogic` where every
repetition invokes the allowlist workflow with no configured
publishers. -/
def runWithNoPublishers (numWallets reps delayMs : Nat)
    (initResult : Nat → Except Err Unit) (o : WfOracles)
    (addrs : List JSVal) (R d : Nat) : List OrchEv :=
  runBotLogic numWallets reps delayMs initResult (appRunWorkflow o [] R d addrs)

/-- A workflow oracle on which every effectful step succeeds. -/
def oAllOk : WfOracles where
  createResult := Except.ok ("A", "E")
  selfAddress := "0xself"
  addResult := fun _ => Except.ok ()
  attemptResult := fun _ => Except.ok "B"
  publishResult := fun _ => Except.ok ()

/-- A workflow oracle on which the add-address transaction for `0xbad`
fails and everything else succeeds. -/
def oAddFails : WfOracles where
  createResult := Except.ok ("A", "E")
  selfAddress := "0xself"
  addResult := fun s => if s = "0xbad" then Except.error "txfail" else Except.ok ()
  attemptResult := fun _ => Except.ok "B"
  publishResult := fun _ => Except.ok ()

/-! ### Claim theorems -/

/-- C9: the logger's history buffer maintains the ring-buffer invariant
`size ≤ capacity` (capacity 1000) after every log call; entries are
appended in emission order (the history is always the suffix of the
emission sequence, never reordered or mutated); and after emitting 1500
events with capacity 1000 the buffer holds exactly the most recent 1000
events, the oldest discarded first. -/
theorem c9_ring_buffer_invariant :
    (maxHistory = 1000) ∧
    (∀ (α : Type) (h : List α) (e : α),
      h.length ≤ maxHistory → (logStep h e).length ≤ maxHistory) ∧
    (∀ (α : Type) (es : List α), (es.foldl logStep []).length ≤ maxHistory) ∧
    (∀ (α : Type) (es : List α),
      es.foldl logStep [] = es.drop (es.length - maxHistory)) ∧
    ((List.range 1500).foldl logStep [] = (List.range 1500).drop 500) := by
  have hfold : ∀ (α : Type) (es : List α),
      es.foldl logStep [] = es.drop (es.length - maxHistory) := by
    intro α es
    have := foldl_logStep_eq es ([] : List α) (by simp)
    simpa using this
  refine ⟨rfl, ?_, ?_, hfold, ?_⟩
  · intro α h e hle
    rw [logStep]
    split
    next hc =>
      simp only [List.length_tail, List.length_append, List.length_cons,
        List.length_nil]
      omega
    next hc => omega
  · intro α es
    rw [hfold]
    rw [List.length_drop]
    omega
  · rw [hfold]
    norm_num [List.length_range, maxHistory]

/-- C9 witness: the step invariant at a concrete history and entry. -/
theorem c9_ring_buffer_invariant_witness :
    ([1, 2] : List Nat).length ≤ maxHistory ∧
    (logStep ([1, 2] : List Nat) 3).length ≤ maxHistory :=
  ⟨by decide, c9_ring_buffer_invariant.2.1 Nat [1, 2] 3 (by decide)⟩

/-- C2 counterexample: in `BotLogger.log`, a listener exception is not
caught inside the emission path — with two listeners of which the first
throws, the call re-throws the error (`some 0` instead of `none`) and
the second listener is never invoked (the observable state stays `0`
instead of becoming `1`), refuting that the error is caught, reported at
WARN level, and the remaining handlers still invoked. -/
theorem c2_emit_counterexample :
    botLoggerLog ([] : List Nat)
      [fun _ => Except.error (0 : Nat), fun n => Except.ok (n + 1)] 0 7 =
      ([7], 0, some 0) := by decide

/-- C2 (amended): an exception thrown by a listener propagates out of the
emission path — it is not caught and not reported at WARN level, the
listeners registered after the throwing one are not invoked for that
event (the result does not depend on them), and the log entry is still
appended to the history before notification; listeners before the
throwing one have already run. -/
theorem c2_emit_not_isolated (α σ ε : Type) (history : List α) (entry : α)
    (hs₁ : List (σ → Except ε σ)) (f : σ → Except ε σ)
    (hs₂ : List (σ → Except ε σ)) (s s₁ : σ) (err : ε)
    (hok : emitAll hs₁ s = (s₁, none)) (hf : f s₁ = Except.error err) :
    emitAll (hs₁ ++ f :: hs₂) s = (s₁, some err) ∧
    botLoggerLog history (hs₁ ++ f :: hs₂) s entry =
      (logStep history entry, s₁, some err) := by
  have hemit := emitAll_append_error hs₁ f hs₂ s s₁ err hok hf
  exact ⟨hemit, by rw [botLoggerLog, hemit]⟩

/-- C2 witness: the amended behaviour at a concrete listener list. -/
theorem c2_emit_not_isolated_witness :
    emitAll ([] ++ (fun _ => Except.error (0 : Nat)) :: [fun n => Except.ok (n + 1)]) 0 =
      (0, some 0) :=
  (c2_emit_not_isolated Nat Nat Nat [] 7 [] (fun _ => Except.error 0)
    [fun n => Except.ok (n + 1)] 0 0 0 rfl rfl).1

/-- C8: on a list whose entries all fail the shape check, a call of
`getNextProxyUrl` returns the no-proxy value; the recursion terminates
within `proxies.length` cursor advances — adding any amount of extra
fuel beyond the list length does not change the result — and the number
of skipped entries is bounded by the list length. -/
theorem c8_all_invalid_returns_none (proxies : List String) (idx : Nat)
    (h : idx < proxies.length)
    (hinv : ∀ s ∈ proxies, returnableFmt s = none) :
    ((getNextProxyUrl proxies idx).1 = none) ∧
    (∀ extra, getNextProxyUrlFuel (proxies.length + extra) proxies idx =
      getNextProxyUrl proxies idx) ∧
    ((getNextProxyUrl proxies idx).2.2.length ≤ proxies.length) := by
  refine ⟨?_, ?_, ?_⟩
  · apply getNextProxyUrlFuel_none_of_suffix_invalid proxies.length idx proxies h
    intro j hj₁ hj₂
    have hmem : proxies.getD j "" ∈ proxies := by
      rw [List.getD_eq_getElem _ _ hj₂]
      exact List.getElem_mem hj₂
    exact hinv _ hmem
  · intro extra
    exact getNextProxyUrlFuel_irrel (proxies.length + extra) proxies.length idx
      proxies h (by omega) (by omega)
  · exact getNextProxyUrlFuel_warn_le proxies.length idx proxies

/-- C8 witness: a concrete all-invalid list of size 2. -/
theorem c8_all_invalid_returns_none_witness :
    (getNextProxyUrl ["bad1", "bad2"] 0).1 = none :=
  (c8_all_invalid_returns_none ["bad1", "bad2"] 0 (by decide) (by decide)).1

/-- C10: an entry beginning with `http://` or `https://` is returned
verbatim by `getNextProxyUrl` — the three-shape validation is not
applied, the entry is never warned about as unsupported and never
skipped (the warning list is empty), and the rotation cursor advances
past it exactly once. -/
theorem c10_scheme_prefix_verbatim (proxies : List String) (idx : Nat)
    (h : idx < proxies.length)
    (hs : startsWithScheme (proxies.getD idx "") = true) :
    getNextProxyUrl proxies idx =
      (some (proxies.getD idx ""), (idx + 1) % proxies.length, []) := by
  obtain ⟨m, hm⟩ : ∃ m, proxies.length = m + 1 := ⟨proxies.length - 1, by omega⟩
  have hstep : getNextProxyUrlFuel proxies.length proxies idx =
      getNextProxyUrlFuel (m + 1) proxies idx := by rw [hm]
  rw [getNextProxyUrl, hstep]
  simp only [getNextProxyUrlFuel]
  rw [if_neg (by omega : ¬ proxies.length = 0), if_pos hs]

/-- C10 witness: an `https://`-prefixed entry that matches none of the
three supported shapes is still returned verbatim with no warning. -/
theorem c10_scheme_prefix_verbatim_witness :
    getNextProxyUrl ["https://garbage", "1.2.3.4:8080"] 0 =
      (some "https://garbage",
       (0 + 1) % (["https://garbage", "1.2.3.4:8080"] : List String).length, []) :=
  c10_scheme_prefix_verbatim ["https://garbage", "1.2.3.4:8080"] 0
    (by decide) (by decide)

/-- C3 counterexample: with the list `["1.2.3.4:8080", "bad"]`, the first
call (cursor 0) returns the parsed first entry and leaves the cursor at
1; the second call inspects `"bad"`, advances the cursor to 0, and —
because the recursion guard `currentProxyIndex !== 0` stops at the wrap
— returns the no-proxy value even though the list still contains an
entry that parses.  This refutes both that no-proxy is returned "only
when the list is empty or every entry in it is invalid" and that a
parseable entry always prevents the no-proxy fallback. -/
theorem c3_fallback_counterexample :
    ((getNextProxyUrl ["1.2.3.4:8080", "bad"] 0).1 = some "http://1.2.3.4:8080") ∧
    ((getNextProxyUrl ["1.2.3.4:8080", "bad"] 0).2.1 = 1) ∧
    ((getNextProxyUrl ["1.2.3.4:8080", "bad"] 1).1 = none) ∧
    (returnableFmt "1.2.3.4:8080" = some "http://1.2.3.4:8080") := by decide

/-- C3 (amended): `getNextProxyUrl` skips unparseable entries by
advancing the cursor, but only up to the wrap to index 0: starting from
cursor `idx`, it returns no-proxy exactly when every entry at or after
`idx` is invalid — so it can fall back to no-proxy even when a valid
entry exists before the cursor.  A malformed entry is never returned:
every produced URL comes from some entry at or after the cursor that
passes the scheme prefix or one of the three shapes (hence the same
malformed endpoint is never returned at all, let alone twice in a row).
The empty list always yields no-proxy. -/
theorem c3_skip_and_fallback (proxies : List String) (idx : Nat) :
    ((getNextProxyUrl [] idx).1 = none) ∧
    (idx < proxies.length →
      (((getNextProxyUrl proxies idx).1 = none) ↔
        (∀ j, idx ≤ j → j < proxies.length →
          returnableFmt (proxies.getD j "") = none)) ∧
      (∀ u, (getNextProxyUrl proxies idx).1 = some u →
        ∃ j, idx ≤ j ∧ j < proxies.length ∧
          returnableFmt (proxies.getD j "") = some u)) := by
  refine ⟨rfl, fun h => ⟨⟨?_, ?_⟩, ?_⟩⟩
  · intro hnone j hj₁ hj₂
    by_contra hne
    have hsome : (returnableFmt (proxies.getD j "")).isSome :=
      Option.ne_none_iff_isSome.mp hne
    have hs := getNextProxyUrlFuel_isSome_of_exists proxies.length idx proxies h
      (by omega) ⟨j, hj₁, hj₂, hsome⟩
    rw [getNextProxyUrl] at hnone
    rw [hnone] at hs
    exact absurd hs (by simp)
  · intro hall
    exact getNextProxyUrlFuel_none_of_suffix_invalid proxies.length idx proxies h hall
  · intro u hu
    exact getNextProxyUrlFuel_some_exists proxies.length idx proxies u h hu

/-- C3 witness: the amended characterisation applied to a concrete list
with an invalid entry before a valid one. -/
theorem c3_skip_and_fallback_witness :
    ∃ j, 0 ≤ j ∧ j < (["bad", "1.2.3.4:8080"] : List String).length ∧
      returnableFmt ((["bad", "1.2.3.4:8080"] : List String).getD j "") =
        some "http://1.2.3.4:8080" :=
  ((c3_skip_and_fallback ["bad", "1.2.3.4:8080"] 0).2 (by decide)).2
    "http://1.2.3.4:8080" (by decide)

/-- C7: when all `MAX_BLOB_UPLOAD_RETRIES` attempts of an upload fail,
the call makes exactly that many HTTP attempts and fails with the last
attempt's error attached to the exhaustion error; every inter-attempt
delay actually waited equals the constant configured retry delay, so the
waited delays are non-decreasing across attempts and bounded above by
the configured maximum backoff ceiling `MAX_BACKOFF_DELAY_MS`. -/
theorem c7_upload_exhaustion (publishers : List String) (errF : Nat → Err)
    (attemptResult : Nat → Except Err String)
    (hpub : ¬ publishers.length = 0)
    (har : ∀ a, attemptResult a = Except.error (errF a)) :
    (((uploadBlob publishers MAX_BLOB_UPLOAD_RETRIES BLOB_UPLOAD_RETRY_DELAY_MS
        attemptResult).1.filter isAttempt).length = MAX_BLOB_UPLOAD_RETRIES) ∧
    ((uploadBlob publishers MAX_BLOB_UPLOAD_RETRIES BLOB_UPLOAD_RETRY_DELAY_MS
        attemptResult).2 =
      Except.error (exhaustedMsg (some (errF MAX_BLOB_UPLOAD_RETRIES)))) ∧
    (delaysOf (uploadBlob publishers MAX_BLOB_UPLOAD_RETRIES
        BLOB_UPLOAD_RETRY_DELAY_MS attemptResult).1 =
      List.replicate (MAX_BLOB_UPLOAD_RETRIES - 1) BLOB_UPLOAD_RETRY_DELAY_MS) ∧
    List.Chain' (· ≤ ·) (delaysOf (uploadBlob publishers MAX_BLOB_UPLOAD_RETRIES
        BLOB_UPLOAD_RETRY_DELAY_MS attemptResult).1) ∧
    (∀ m ∈ delaysOf (uploadBlob publishers MAX_BLOB_UPLOAD_RETRIES
        BLOB_UPLOAD_RETRY_DELAY_MS attemptResult).1, m ≤ MAX_BACKOFF_DELAY_MS) := by
  have hub : uploadBlob publishers MAX_BLOB_UPLOAD_RETRIES
      BLOB_UPLOAD_RETRY_DELAY_MS attemptResult =
      uploadLoop publishers BLOB_UPLOAD_RETRY_DELAY_MS attemptResult
        MAX_BLOB_UPLOAD_RETRIES 1 none := by
    rw [uploadBlob, if_neg hpub]
  obtain ⟨h₁, h₂, h₃⟩ := uploadLoop_fail_trace publishers
    BLOB_UPLOAD_RETRY_DELAY_MS attemptResult errF har 4 1 none
  have hM : MAX_BLOB_UPLOAD_RETRIES = 4 + 1 := rfl
  rw [hub, hM]
  refine ⟨h₁, by simpa using h₃, by simpa using h₂, ?_, ?_⟩
  · rw [h₂]
    exact chainLe_replicate 4 BLOB_UPLOAD_RETRY_DELAY_MS
  · intro m hm
    rw [h₂] at hm
    have hmc := List.eq_of_mem_replicate hm
    subst hmc
    decide

/-- C7 witness: a concrete publisher list and a constant failing attempt
oracle. -/
theorem c7_upload_exhaustion_witness :
    (((uploadBlob ["p"] MAX_BLOB_UPLOAD_RETRIES BLOB_UPLOAD_RETRY_DELAY_MS
        (fun _ => Except.error "neterr")).1.filter isAttempt).length =
      MAX_BLOB_UPLOAD_RETRIES) ∧
    ((uploadBlob ["p"] MAX_BLOB_UPLOAD_RETRIES BLOB_UPLOAD_RETRY_DELAY_MS
        (fun _ => Except.error "neterr")).2 =
      Except.error (exhaustedMsg (some "neterr"))) :=
  ⟨(c7_upload_exhaustion ["p"] (fun _ => "neterr") (fun _ => Except.error "neterr")
      (by decide) (fun _ => rfl)).1,
   (c7_upload_exhaustion ["p"] (fun _ => "neterr") (fun _ => Except.error "neterr")
      (by decide) (fun _ => rfl)).2.1⟩

/-- C4 counterexample: on the exact input addresses of the claim,
`["0xaa", "not-an-address-but-string", "0xbb"]`, the second entry is a
non-empty string, so the guard `addr && typeof addr === 'string'`
accepts it: the workflow does not skip it with a warning but submits an
add-address transaction for it (the trace contains
`txAdd "not-an-address-but-string"` and no skip warning at all). -/
theorem c4_string_entry_counterexample :
    (WfEv.txAdd "not-an-address-but-string" ∈
      (runCompleteAllowlistWorkflow oAllOk ["p"] 1 0
        [JSVal.str "0xaa", JSVal.str "not-an-address-but-string",
         JSVal.str "0xbb"]).1) ∧
    ((runCompleteAllowlistWorkflow oAllOk ["p"] 1 0
        [JSVal.str "0xaa", JSVal.str "not-an-address-but-string",
         JSVal.str "0xbb"]).1.filter isSkipWf = []) := by decide

/-- C4 (amended): in the allowlist workflow, each malformed additional
address — a value that is not a string, or the empty string — is
skipped with a warning without aborting the workflow, and the remaining
valid addresses are still added in order; an add-address transaction
failure aborts the workflow so that no blob upload is attempted.  A
non-empty string such as `"not-an-address-but-string"` is not malformed
under the code's guard: it is submitted as a transaction.  The concrete
list `[str "0xaa", null, str "0xbb"]` shows the skip: the null is warned
about and skipped while both strings are added. -/
theorem c4_allowlist_address_handling :
    (∀ (addRes : String → Except Err Unit), (∀ s, addRes s = Except.ok ()) →
      ∀ addrs, addLoop addRes addrs =
        (addrs.map (fun a => match a with
          | JSVal.str s =>
            if s = "" then WfEv.warnSkipAddr (JSVal.str s) else WfEv.txAdd s
          | a => WfEv.warnSkipAddr a), Except.ok ())) ∧
    (∀ (o : WfOracles) (publishers : List String) (R d : Nat)
        (addrs : List JSVal) (p : String × String) (e : Err),
      o.createResult = Except.ok p →
      o.addResult o.selfAddress = Except.ok () →
      (addLoop o.addResult addrs).2 = Except.error e →
      ((runCompleteAllowlistWorkflow o publishers R d addrs).2 = Except.error e ∧
       (runCompleteAllowlistWorkflow o publishers R d addrs).1.filter isUploadWf
         = [])) ∧
    ((addLoop (fun _ => Except.ok ()) [JSVal.str "0xaa", JSVal.nullv,
        JSVal.str "0xbb"]).1 =
      [WfEv.txAdd "0xaa", WfEv.warnSkipAddr JSVal.nullv, WfEv.txAdd "0xbb"] ∧
     (addLoop (fun _ => Except.ok ()) [JSVal.str "0xaa", JSVal.nullv,
        JSVal.str "0xbb"]).2 = Except.ok ()) := by
  refine ⟨addLoop_all_ok, ?_, by decide⟩
  intro o publishers R d addrs p e hc hself hadd
  rw [workflow_addLoop_error o publishers R d addrs p e hc hself hadd]
  refine ⟨rfl, ?_⟩
  simp [isUploadWf, addLoop_no_upload]

/-- C4 witness: the fail-fast half applied to a concrete oracle whose
add-address transaction for `0xbad` fails: the workflow fails with that
error and its trace has no upload action. -/
theorem c4_allowlist_address_handling_witness :
    (runCompleteAllowlistWorkflow oAddFails ["p"] 1 0 [JSVal.str "0xbad"]).2 =
      Except.error "txfail" ∧
    (runCompleteAllowlistWorkflow oAddFails ["p"] 1 0
      [JSVal.str "0xbad"]).1.filter isUploadWf = [] :=
  c4_allowlist_address_handling.2.1 oAddFails ["p"] 1 0 [JSVal.str "0xbad"]
    ("A", "E") "txfail" rfl (by decide) (by decide)

/-- C6: for every wallet list, every initialisation outcome and every
pattern of workflow failures, the run completes normally (its trace ends
with the completion event), every wallet reaches its `finally` block —
so one wallet's failure never aborts subsequent wallets — and every
repetition `1..reps` of every wallet whose initialisation succeeded is
invoked, whatever errors other repetitions raised: repetition errors
are contained at the repetition boundary and initialisation errors at
the wallet boundary. -/
theorem c6_failure_containment (numWallets reps delayMs : Nat)
    (initResult : Nat → Except Err Unit)
    (runWorkflow : Nat → Nat → List WfEv × Except Err Unit) :
    ((runBotLogic numWallets reps delayMs initResult runWorkflow).getLast? =
      some OrchEv.allFinished) ∧
    (∀ i, i < numWallets →
      OrchEv.walletFinished i ∈
        runBotLogic numWallets reps delayMs initResult runWorkflow) ∧
    (∀ i r, i < numWallets → initResult i = Except.ok () → 1 ≤ r → r ≤ reps →
      OrchEv.workflowInvoked i r ∈
        runBotLogic numWallets reps delayMs initResult runWorkflow) := by
  refine ⟨runBotLogic_getLast numWallets reps delayMs initResult runWorkflow,
    ?_, ?_⟩
  · intro i hi
    exact walletEvent_mem_runBotLogic numWallets reps delayMs initResult
      runWorkflow i hi _
      (walletFinished_mem_walletEvents initResult runWorkflow reps delayMs i)
  · intro i r hi hinit hr₁ hr₂
    exact walletEvent_mem_runBotLogic numWallets reps delayMs initResult
      runWorkflow i hi _
      (repEvent_mem_walletEvents initResult runWorkflow reps delayMs i r hinit
        hr₁ hr₂ _ (invoked_mem_repEvents runWorkflow reps delayMs i r))

/-- C6 witness: a run whose single repetition fails still invokes it and
completes. -/
theorem c6_failure_containment_witness :
    OrchEv.workflowInvoked 0 1 ∈
      runBotLogic 1 1 0 (fun _ => Except.ok ())
        (fun _ _ => ([], Except.error "boom")) :=
  (c6_failure_containment 1 1 0 (fun _ => Except.ok ())
    (fun _ _ => ([], Except.error "boom"))).2.2 0 1 (by decide) rfl
    (by decide) (by decide)

/-- C1 counterexample: with an empty publisher list, one wallet and one
repetition, the run is not halted before wallet processing — the
keypair initialisation happens and the create-allowlist transaction is
executed; the missing-publishers condition only surfaces later, inside
`uploadBlob`. -/
theorem c1_no_publishers_counterexample :
    (OrchEv.initKeypair 0 ∈ runWithNoPublishers 1 1 TASK_REPEAT_DELAY_MS
      (fun _ => Except.ok ()) oAllOk [] MAX_BLOB_UPLOAD_RETRIES
      BLOB_UPLOAD_RETRY_DELAY_MS) ∧
    (OrchEv.workflowStep 0 1 WfEv.txCreate ∈ runWithNoPublishers 1 1
      TASK_REPEAT_DELAY_MS (fun _ => Except.ok ()) oAllOk []
      MAX_BLOB_UPLOAD_RETRIES BLOB_UPLOAD_RETRY_DELAY_MS) := by decide

/-- C1 (amended): an empty publisher list is not checked at startup and
does not halt the run: wallet processing still occurs — the keypair
initialisation of every wallet is attempted, and for every wallet whose
initialisation succeeded every repetition executes the create-allowlist
and add-address transactions — while no upload attempt is ever made
(`uploadBlob` raises `No publisher URLs configured.` before its first
attempt); that error is caught at the repetition boundary, so every
repetition records a contained failure and the run completes
normally. -/
theorem c1_no_publishers_not_a_startup_check (numWallets reps delayMs : Nat)
    (initResult : Nat → Except Err Unit) (o : WfOracles) (addrs : List JSVal)
    (R d : Nat) (p : String × String)
    (hc : o.createResult = Except.ok p)
    (hself : o.addResult o.selfAddress = Except.ok ())
    (hadd : (addLoop o.addResult addrs).2 = Except.ok ()) :
    ((runWithNoPublishers numWallets reps delayMs initResult o addrs R d).getLast?
      = some OrchEv.allFinished) ∧
    (∀ i, i < numWallets →
      OrchEv.initKeypair i ∈
        runWithNoPublishers numWallets reps delayMs initResult o addrs R d) ∧
    (∀ i r, i < numWallets → initResult i = Except.ok () → 1 ≤ r → r ≤ reps →
      (OrchEv.workflowStep i r WfEv.txCreate ∈
        runWithNoPublishers numWallets reps delayMs initResult o addrs R d) ∧
      (OrchEv.repFailed i r ∈
        runWithNoPublishers numWallets reps delayMs initResult o addrs R d)) ∧
    ((runWithNoPublishers numWallets reps delayMs initResult o addrs R d).filter
      isUploadEv = []) := by
  have hwf := workflow_no_publishers o R d addrs p hc hself hadd
  have happ : ∀ i r, appRunWorkflow o [] R d addrs i r =
      (WfEv.txCreate :: WfEv.txAdd o.selfAddress :: (addLoop o.addResult addrs).1,
       Except.error noPublishersMsg) := by
    intro i r
    rw [appRunWorkflow, hwf]
    rfl
  refine ⟨runBotLogic_getLast _ _ _ _ _, ?_, ?_, ?_⟩
  · intro i hi
    exact walletEvent_mem_runBotLogic _ _ _ _ _ i hi _
      (initKeypair_mem_walletEvents _ _ _ _ i)
  · intro i r hi hinit hr₁ hr₂
    constructor
    · refine walletEvent_mem_runBotLogic _ _ _ _ _ i hi _
        (repEvent_mem_walletEvents _ _ _ _ i r hinit hr₁ hr₂ _ ?_)
      apply step_mem_repEvents
      rw [happ i r]
      exact List.mem_cons_self _ _
    · refine walletEvent_mem_runBotLogic _ _ _ _ _ i hi _
        (repEvent_mem_walletEvents _ _ _ _ i r hinit hr₁ hr₂ _ ?_)
      apply repFailed_mem_repEvents _ _ _ _ _ noPublishersMsg
      rw [happ i r]
  · apply runBotLogic_no_upload
    intro i r
    rw [happ i r]
    simp [isUploadWf, addLoop_no_upload]

/-- C1 witness: the amended behaviour at one wallet and one repetition
with concrete oracles. -/
theorem c1_no_publishers_not_a_startup_check_witness :
    OrchEv.repFailed 0 1 ∈
      runWithNoPublishers 1 1 0 (fun _ => Except.ok ()) oAllOk [] 1 0 :=
  ((c1_no_publishers_not_a_startup_check 1 1 0 (fun _ => Except.ok ()) oAllOk []
    1 0 ("A", "E") rfl rfl rfl).2.2.1 0 1 (by decide) rfl (by decide)
    (by decide)).2

/-- C5: with 2 wallets and `repetitionsPerWallet = 3`, the orchestrator
invokes the workflow exactly 6 times in order — wallet 0 repetitions
1,2,3 then wallet 1 repetitions 1,2,3 — and, when every repetition
succeeds, waits exactly 2 inter-repetition delays per wallet, after
repetitions 1 and 2 and never after the last; and even when wallet 0's
second repetition fails, all 6 invocations still happen in the same
order, so wallet 1 runs all its repetitions. -/
theorem c5_two_wallets_three_reps
    (runW runW2 : Nat → Nat → List WfEv × Except Err Unit) (e : Err)
    (hok : ∀ i r, (runW i r).2 = Except.ok ())
    (_hfail : (runW2 0 2).2 = Except.error e) :
    ((runBotLogic 2 3 TASK_REPEAT_DELAY_MS (fun _ => Except.ok ()) runW).filter
        isInvoked =
      [OrchEv.workflowInvoked 0 1, OrchEv.workflowInvoked 0 2,
       OrchEv.workflowInvoked 0 3, OrchEv.workflowInvoked 1 1,
       OrchEv.workflowInvoked 1 2, OrchEv.workflowInvoked 1 3]) ∧
    ((runBotLogic 2 3 TASK_REPEAT_DELAY_MS (fun _ => Except.ok ()) runW).filter
        isDelayEv =
      [OrchEv.interRepDelay 0 1 TASK_REPEAT_DELAY_MS,
       OrchEv.interRepDelay 0 2 TASK_REPEAT_DELAY_MS,
       OrchEv.interRepDelay 1 1 TASK_REPEAT_DELAY_MS,
       OrchEv.interRepDelay 1 2 TASK_REPEAT_DELAY_MS]) ∧
    ((runBotLogic 2 3 TASK_REPEAT_DELAY_MS (fun _ => Except.ok ()) runW2).filter
        isInvoked =
      [OrchEv.workflowInvoked 0 1, OrchEv.workflowInvoked 0 2,
       OrchEv.workflowInvoked 0 3, OrchEv.workflowInvoked 1 1,
       OrchEv.workflowInvoked 1 2, OrchEv.workflowInvoked 1 3]) := by
  have hshape : List.range 2 = [0, 1] := rfl
  have hreps : List.range' 1 3 = [1, 2, 3] := rfl
  refine ⟨?_, ?_, ?_⟩
  · simp only [runBotLogic, hshape, hreps, List.flatMap_cons, List.flatMap_nil,
      List.append_nil, walletEvents]
    simp [List.filter_append, repEvents_filter_invoked, isInvoked]
  · have h01 := repEvents_delay_mid runW 3 TASK_REPEAT_DELAY_MS 0 1 (hok 0 1)
      (by norm_num) (by norm_num [TASK_REPEAT_DELAY_MS])
    have h02 := repEvents_delay_mid runW 3 TASK_REPEAT_DELAY_MS 0 2 (hok 0 2)
      (by norm_num) (by norm_num [TASK_REPEAT_DELAY_MS])
    have h03 := repEvents_delay_last runW 3 TASK_REPEAT_DELAY_MS 0 3 (hok 0 3)
      (by norm_num)
    have h11 := repEvents_delay_mid runW 3 TASK_REPEAT_DELAY_MS 1 1 (hok 1 1)
      (by norm_num) (by norm_num [TASK_REPEAT_DELAY_MS])
    have h12 := repEvents_delay_mid runW 3 TASK_REPEAT_DELAY_MS 1 2 (hok 1 2)
      (by norm_num) (by norm_num [TASK_REPEAT_DELAY_MS])
    have h13 := repEvents_delay_last runW 3 TASK_REPEAT_DELAY_MS 1 3 (hok 1 3)
      (by norm_num)
    simp only [runBotLogic, hshape, hreps, List.flatMap_cons, List.flatMap_nil,
      List.append_nil, walletEvents]
    simp [List.filter_append, h01, h02, h03, h11, h12, h13, isDelayEv]
  · simp only [runBotLogic, hshape, hreps, List.flatMap_cons, List.flatMap_nil,
      List.append_nil, walletEvents]
    simp [List.filter_append, repEvents_filter_invoked, isInvoked]

/-- C5 witness: concrete workflow oracles — all repetitions succeed for
the first run, and exactly wallet 0's second repetition fails for the
second. -/
theorem c5_two_wallets_three_reps_witness :
    (runBotLogic 2 3 TASK_REPEAT_DELAY_MS (fun _ => Except.ok ())
      (fun i r => ([], if i = 0 ∧ r = 2 then Except.error "boom"
        else Except.ok ()))).filter isInvoked =
      [OrchEv.workflowInvoked 0 1, OrchEv.workflowInvoked 0 2,
       OrchEv.workflowInvoked 0 3, OrchEv.workflowInvoked 1 1,
       OrchEv.workflowInvoked 1 2, OrchEv.workflowInvoked 1 3] :=
  (c5_two_wallets_three_reps (fun _ _ => ([], Except.ok ()))
    (fun i r => ([], if i = 0 ∧ r = 2 then Except.error "boom"
      else Except.ok ())) "boom" (fun _ _ => rfl) (by decide)).2.2
